import Mathlib

/-!
Shallow embedding of the trading_system backtesting core
(`trading_engine/backtesting/engine.py` and `trading_engine/risk/portfolio.py`)
and proofs about its accounting invariants.

Modelling conventions:
* Python floats are modelled as exact rationals (`ℚ`); the claims under study
  are about the accounting algebra, not about rounding.
* Python `dict` positions are modelled as association lists
  `List (String × ℚ)` so that "the map entry is absent" is expressible.
* Operations that raise in Python (division by zero) are modelled with
  `Option`: `none` is the error / NaN outcome.
* `pandas` NaN values arising in the metrics (std of fewer than two samples,
  `pct_change` of a leading row) are modelled as `none`.
* The square root and the real power used by the metrics are irrational in
  general, so `calcMetrics` is parametrised by the functions `sq` (square
  root) and `rpow` (real power); theorems assume only the algebraic facts
  of the genuine functions that they need (`sq 0 = 0`, `rpow 1 e = 1`).
-/

namespace TradingSystem

/-- Signal values from `strategies/base.py` (`SignalType`): BUY = 1,
SELL = -1, HOLD = 0; signal columns hold plain integers. -/
abbrev SignalValue := ℤ

/-- Order side, the `action` string field of an engine order dict. -/
inductive Action where
  | buy
  | sell
deriving DecidableEq, Repr

/-- An order dict produced by `BacktestEngine._generate_orders`. -/
structure Order where
  symbol : String
  action : Action
  quantity : ℚ
  price : ℚ
deriving DecidableEq, Repr

/-- A trade record appended by `BacktestEngine._execute_order`. -/
structure Trade where
  date : ℕ
  symbol : String
  action : Action
  quantity : ℚ
  price : ℚ
  commission : ℚ
  value : ℚ
deriving DecidableEq, Repr

/-- The mutable portfolio state of the engine
(`self.portfolio` in `BacktestEngine.__init__`). -/
structure Portfolio where
  cash : ℚ
  positions : List (String × ℚ)
  equity : ℚ
  trades : List Trade
deriving DecidableEq, Repr

/-- Engine configuration: `initial_capital`, `commission_rate`, `slippage`
from `BacktestEngine.__init__`. -/
structure Config where
  initial_capital : ℚ
  commission_rate : ℚ
  slippage : ℚ
deriving DecidableEq, Repr

/-- `self.portfolio['positions'].get(symbol, 0)`. -/
def getPos (l : List (String × ℚ)) (s : String) : ℚ :=
  match l.find? (fun e => e.1 = s) with
  | some e => e.2
  | none => 0

/-- `self.portfolio['positions'][symbol] = v` (dict assignment: replace the
entry when the key is present, append it otherwise). -/
def setPos (l : List (String × ℚ)) (s : String) (v : ℚ) : List (String × ℚ) :=
  if l.any (fun e => e.1 = s) then
    l.map (fun e => if e.1 = s then (s, v) else e)
  else
    l ++ [(s, v)]

/-- `self.portfolio['positions'].pop(symbol, None)`. -/
def erasePos (l : List (String × ℚ)) (s : String) : List (String × ℚ) :=
  l.filter (fun e => ¬ e.1 = s)

/-- `BacktestEngine._execute_order`.  Mirrors the Python statement for
statement: slippage-adjusted execution price, commission and trade value
from the *original* order quantity, the cash-constrained BUY shrink, the
SELL clip to the held quantity, the `pop` of emptied positions, and the
trade record appended at the end.  The dropped-BUY early `return` leaves
the portfolio unchanged. -/
def executeOrder (cfg : Config) (order : Order) (date : ℕ) (pf : Portfolio) :
    Portfolio :=
  let execution_price :=
    order.price * (if order.action = Action.buy then 1 + cfg.slippage else 1 - cfg.slippage)
  let commission := execution_price * order.quantity * cfg.commission_rate
  let trade_value := execution_price * order.quantity
  match order.action with
  | Action.buy =>
    let total_cost := trade_value + commission
    if total_cost > pf.cash then
      -- adjust quantity if not enough cash
      let adjusted_quantity := (pf.cash - commission) / execution_price
      let trade_value := execution_price * adjusted_quantity
      let quantity := adjusted_quantity
      let total_cost := trade_value + commission
      if adjusted_quantity ≤ 0 then
        pf  -- warning logged, no trade recorded
      else
        { pf with
          cash := pf.cash - total_cost
          positions := setPos pf.positions order.symbol (getPos pf.positions order.symbol + quantity)
          trades := pf.trades ++
            [⟨date, order.symbol, Action.buy, quantity, execution_price, commission, trade_value⟩] }
    else
      { pf with
        cash := pf.cash - total_cost
        positions := setPos pf.positions order.symbol (getPos pf.positions order.symbol + order.quantity)
        trades := pf.trades ++
          [⟨date, order.symbol, Action.buy, order.quantity, execution_price, commission, trade_value⟩] }
  | Action.sell =>
    let current_position := getPos pf.positions order.symbol
    let quantity := if order.quantity > current_position then current_position else order.quantity
    let trade_value := if order.quantity > current_position then execution_price * current_position else trade_value
    let positions1 := setPos pf.positions order.symbol (current_position - quantity)
    let positions2 :=
      if current_position - quantity ≤ 0 then erasePos positions1 order.symbol else positions1
    { pf with
      cash := pf.cash + trade_value - commission
      positions := positions2
      trades := pf.trades ++
        [⟨date, order.symbol, Action.sell, quantity, execution_price, commission, trade_value⟩] }

/-- Risk parameters of `PortfolioRiskManager.__init__` (the stop-loss and
take-profit percentages play no role in the functions under study). -/
structure RiskParams where
  max_position_size : ℚ
  max_portfolio_risk : ℚ
deriving DecidableEq, Repr

/-- Steps 3 and 4 of `PortfolioRiskManager.calculate_position_size`: scale
the running `max_size` by the clamped signal strength when one is given,
then by the linear utilization reduction when more than 70% of the
portfolio is already allocated. -/
def sizeAdjust (signal_strength : Option ℚ) (current_positions : List (String × ℚ))
    (portfolio_value : ℚ) (m1 : ℚ) : ℚ :=
  -- 3. adjust based on signal strength
  let m2 :=
    match signal_strength with
    | none => m1
    | some ss => m1 * min (max |ss| 0) 1
  -- 4. check current portfolio exposure
  let current_exposure := (current_positions.map Prod.snd).sum
  let portfolio_utilization :=
    if portfolio_value > 0 then current_exposure / portfolio_value else 0
  if portfolio_utilization > 7/10 then
    m2 * max (1 - (portfolio_utilization - 7/10) / (3/10)) 0
  else m2

/-- `PortfolioRiskManager.calculate_position_size`.  The `symbol` argument is
unused by the Python body and omitted; `price` is kept although the body never
reads it.  The only fallible step is the division by `volatility`, performed
whenever `volatility is not None`: Python raises `ZeroDivisionError` when it
is zero, modelled as `none`. -/
def calculatePositionSize (rm : RiskParams) (price : ℚ) (portfolio_value : ℚ)
    (signal_strength : Option ℚ) (current_positions : List (String × ℚ))
    (volatility : Option ℚ) : Option ℚ :=
  let _ := price
  -- 1. position size limit based on max_position_size
  let max_size := portfolio_value * rm.max_position_size
  -- 2. volatility-based cap, applied whenever volatility is provided
  let capped : Option ℚ :=
    match volatility with
    | none => some max_size
    | some v =>
        if v = 0 then none  -- ZeroDivisionError
        else some (min max_size (portfolio_value * rm.max_portfolio_risk / v))
  capped.map (sizeAdjust signal_strength current_positions portfolio_value)

/-- One simulated day's market inputs: the day's close prices
(`current_data.loc[symbol, 'close']`, `none` when the symbol has no bar that
day), the `{symbol}_signal` column (`none` when absent from the signal row)
and the `{symbol}_momentum` column. -/
structure Day where
  prices : String → Option ℚ
  signal : String → Option SignalValue
  momentum : String → Option ℚ

/-- The body of the per-symbol iteration of `BacktestEngine._generate_orders`:
`none` when the symbol contributes no order.  A BUY (signal = 1) is attempted
only from a flat or short book (`current_position <= 0`), a SELL (signal = -1)
only from a long book; the BUY size comes from the risk manager (called with
`volatility=None`, so that call cannot fail) with
`signal_strength = day_signals.get(momentum, 0)`.  A symbol whose price is
missing from the day's bars would raise a `KeyError` in Python; such days are
outside the claims and modelled as contributing no order. -/
def orderForSymbol (rm : RiskParams) (d : Day) (pf : Portfolio) (s : String) :
    Option Order :=
  match d.signal s with
  | none => none
  | some sig =>
    let current_position := getPos pf.positions s
    if sig = 1 ∧ current_position ≤ 0 then
      match d.prices s with
      | none => none
      | some price =>
        match calculatePositionSize rm price pf.equity (some ((d.momentum s).getD 0))
            pf.positions none with
        | none => none
        | some position_size =>
          if position_size > 0 then
            some ⟨s, Action.buy, position_size / price, price⟩
          else none
    else if sig = -1 ∧ current_position > 0 then
      match d.prices s with
      | none => none
      | some price => some ⟨s, Action.sell, current_position, price⟩
    else none

/-- `BacktestEngine._generate_orders`: the for-loop appends at most one order
per symbol, in symbol-list order. -/
def generateOrders (rm : RiskParams) (symbols : List String) (d : Day)
    (pf : Portfolio) : List Order :=
  symbols.filterMap (orderForSymbol rm d pf)

/-- One row of the daily results table (`portfolio_value`, `cash`,
`positions_value` plus the per-symbol quantity/value cells written by
mark-to-market). -/
structure DayRow where
  portfolio_value : ℚ
  cash : ℚ
  positions_value : ℚ
  perSymbol : List (String × ℚ × ℚ)
deriving DecidableEq, Repr

/-- `BacktestEngine._update_portfolio_value`: fold over the held positions,
adding `price * quantity` for every symbol present in the day's data and
skipping (with a warning) the ones that are not; then set
`equity = cash + positions_value` and fill the day's results row. -/
def updatePortfolioValue (prices : String → Option ℚ) (pf : Portfolio) :
    Portfolio × DayRow :=
  let acc := pf.positions.foldl
    (fun (acc : ℚ × List (String × ℚ × ℚ)) e =>
      match prices e.1 with
      | some price => (acc.1 + price * e.2, acc.2 ++ [(e.1, e.2, price * e.2)])
      | none => acc)  -- symbol not found in data: warning, no contribution
    (0, [])
  let positions_value := acc.1
  let pf1 := { pf with equity := pf.cash + positions_value }
  (pf1, ⟨pf1.equity, pf1.cash, positions_value, acc.2⟩)

/-- Specification-side valuation: the sum over every held entry of
`close * quantity` when the close price is known, `0` otherwise. -/
def positionsValueSpec (prices : String → Option ℚ) (l : List (String × ℚ)) : ℚ :=
  (l.map (fun e =>
    match prices e.1 with
    | some price => price * e.2
    | none => 0)).sum

/-- Execute a list of orders in sequence on one day
(the `for order in orders` loop of `BacktestEngine.run`). -/
def execOrders (cfg : Config) (date : ℕ) (orders : List Order) (pf : Portfolio) :
    Portfolio :=
  orders.foldl (fun p o => executeOrder cfg o date p) pf

/-- One iteration of the daily simulation loop of `BacktestEngine.run`
(for a non-first day): generate the day's orders, execute them, then
mark to market. -/
def simulateDay (cfg : Config) (rm : RiskParams) (symbols : List String)
    (d : Day) (date : ℕ) (pf : Portfolio) : Portfolio × DayRow :=
  updatePortfolioValue d.prices (execOrders cfg date (generateOrders rm symbols d pf) pf)

/-- Run the daily loop over a list of (non-first) days, numbering them from
`i`. -/
def runDays (cfg : Config) (rm : RiskParams) (symbols : List String) :
    List Day → ℕ → Portfolio → Portfolio
  | [], _, pf => pf
  | d :: rest, i, pf => runDays cfg rm symbols rest (i + 1) (simulateDay cfg rm symbols d i pf).1

/-- The portfolio state built by `BacktestEngine.__init__`. -/
def initialPortfolio (cfg : Config) : Portfolio :=
  ⟨cfg.initial_capital, [], cfg.initial_capital, []⟩

/-- All position-map entries hold a strictly positive quantity. -/
def posInvB (pf : Portfolio) : Bool :=
  pf.positions.all (fun e => decide (0 < e.2))

/-- A well-formed order sequence relative to a starting portfolio: every
order has nonnegative quantity and price, and every SELL asks for at most
the quantity held when it executes (which is how `_generate_orders` builds
SELL orders). -/
def validSeqB (cfg : Config) (pf : Portfolio) : List Order → Bool
  | [] => true
  | o :: rest =>
    decide (0 ≤ o.quantity) && decide (0 ≤ o.price) &&
    (if o.action = Action.sell then decide (o.quantity ≤ getPos pf.positions o.symbol) else true) &&
    validSeqB cfg (executeOrder cfg o 0 pf) rest

/-- `results['portfolio_value'].pct_change()`: `none` for the first row (NaN)
and `v[i]/v[i-1] - 1` afterwards.  A zero previous value gives a float
infinity in Python; that case is outside every claim and modelled as
`none`. -/
def pctChange (l : List ℚ) : List (Option ℚ) :=
  match l with
  | [] => []
  | x :: xs =>
    none :: List.zipWith (fun prev cur => if prev = 0 then none else some (cur / prev - 1))
      (x :: xs) xs

/-- `pandas.Series.mean` of the values of a list. -/
def listMean (l : List ℚ) : ℚ :=
  l.sum / l.length

/-- `pandas.Series.std(ddof=1)` squared, i.e. the sample variance: NaN
(`none`) for fewer than two samples. -/
def sampleVariance (l : List ℚ) : Option ℚ :=
  if l.length < 2 then none
  else some ((l.map (fun x => (x - listMean l) ^ 2)).sum / ((l.length : ℚ) - 1))

/-- `pandas.Series.cumprod`. -/
def cumprod (l : List ℚ) : List ℚ :=
  (l.scanl (· * ·) 1).tail

/-- Running maximum with seed `m` (the tail of `cummax`). -/
def cummaxAux (m : ℚ) : List ℚ → List ℚ
  | [] => []
  | x :: xs => max m x :: cummaxAux (max m x) xs

/-- `pandas.Series.cummax`. -/
def cummax : List ℚ → List ℚ
  | [] => []
  | x :: xs => x :: cummaxAux x xs

/-- First-occurrence deduplication, as `pandas.Series.unique` on the trade
symbols. -/
def uniqueSyms (l : List String) : List String :=
  l.foldl (fun acc s => if s ∈ acc then acc else acc ++ [s]) []

/-- The per-symbol win/loss tally of `_calculate_metrics`: for one symbol,
`some true` when its aggregate average sell price exceeds its aggregate
average buy price, `some false` when it does not, `none` when the symbol has
no sells (it is skipped). -/
def symbolWin (buys sells : List Trade) (s : String) : Option Bool :=
  let symbol_buys := buys.filter (fun t => t.symbol = s)
  let symbol_sells := sells.filter (fun t => t.symbol = s)
  let shares_bought := (symbol_buys.map (fun t => t.quantity)).sum
  let cost_basis := (symbol_buys.map (fun t => t.quantity * t.price)).sum
  let shares_sold := (symbol_sells.map (fun t => t.quantity)).sum
  let sell_value := (symbol_sells.map (fun t => t.quantity * t.price)).sum
  if shares_sold > 0 then
    let avg_buy_price := if shares_bought > 0 then cost_basis / shares_bought else 0
    let avg_sell_price := sell_value / shares_sold
    some (decide (avg_sell_price > avg_buy_price))
  else none

/-- The win-rate block of `_calculate_metrics`. -/
def winRate (trades : List Trade) : ℚ :=
  if trades.length > 0 then
    let buys := trades.filter (fun t => t.action = Action.buy)
    let sells := trades.filter (fun t => t.action = Action.sell)
    if ¬ buys.isEmpty ∧ ¬ sells.isEmpty then
      let outcomes := (uniqueSyms (trades.map (fun t => t.symbol))).filterMap
        (symbolWin buys sells)
      let wins := (outcomes.filter (fun b => b = true)).length
      let losses := (outcomes.filter (fun b => b = false)).length
      if wins + losses > 0 then (wins : ℚ) / ((wins : ℚ) + (losses : ℚ)) else 0
    else 0
  else 0

/-- The metrics dict returned by `_calculate_metrics`.  `Option` fields are
the ones that are NaN in Python when the series is too short (`volatility`,
via `std(ddof=1)`) or that would raise on an empty series (`final_value` via
`iloc[-1]`, and the fields derived from it).  `volatility` is represented
through the parametrising square-root function, see `calcMetrics`. -/
structure Metrics where
  initial_value : ℚ
  final_value : Option ℚ
  total_return : Option ℚ
  annual_return : Option ℚ
  volatility : Option ℚ
  sharpe_ratio : ℚ
  max_drawdown : Option ℚ
  win_rate : ℚ
  num_trades : ℕ
deriving DecidableEq, Repr

/-- `BacktestEngine._calculate_metrics`, parametrised by `sq` (the square
root `np.sqrt`, applied to the sample variance and to 252) and `rpow` (the
float power `x ** e`, with `e = 252 / days`).  `values` is the
`portfolio_value` column, `trades` the trade log. -/
def calcMetrics (sq : ℚ → ℚ) (rpow : ℚ → ℚ → ℚ) (initial_capital : ℚ)
    (values : List ℚ) (trades : List Trade) : Metrics :=
  let daily_return := pctChange values
  let initial_value := initial_capital
  let final_value := values.getLast?
  let total_return := final_value.map (fun f => f / initial_value - 1)
  let days := values.length
  let annual_return := total_return.map (fun tr => rpow (1 + tr) (252 / (days : ℚ)) - 1)
  let daily_returns := daily_return.filterMap id  -- dropna
  let volatility := (sampleVariance daily_returns).map (fun v => sq v * sq 252)
  let sharpe_ratio :=
    match volatility, annual_return with
    | some v, some a => if v > 0 then a / v else 0
    | some v, none => if v > 0 then 0 else 0  -- unreachable: volatility needs ≥ 2 rows
    | none, _ => 0  -- NaN > 0 is false in Python, so the guard picks 0
  let cum_return := cumprod ((daily_return.map (fun o => o.getD 0)).map (fun r => 1 + r))
  let running_max := cummax cum_return
  let drawdown := List.zipWith (fun c m => c / m - 1) cum_return running_max
  let max_drawdown := drawdown.min?
  { initial_value := initial_value
    final_value := final_value
    total_return := total_return
    annual_return := annual_return
    volatility := volatility
    sharpe_ratio := sharpe_ratio
    max_drawdown := max_drawdown
    win_rate := winRate trades
    num_trades := trades.length }

/-- The dict returned by `BacktestEngine.run` on success.  `execution_time`
is the wall-clock duration measured with `time.time()`. -/
structure RunResult where
  results : List DayRow
  metrics : Metrics
  trades : List Trade
  final_value : Option ℚ
  execution_time : ℚ
deriving DecidableEq, Repr

/-- `run` either reports `{'error': 'No data available'}` on an empty bar
fetch or returns a full result. -/
inductive RunOutcome where
  | error
  | ok (r : RunResult)
deriving DecidableEq, Repr

/-- `BacktestEngine.run`: fetch yields `days` (one entry per distinct date,
in chronological order); empty data is the error result.  The results table
is pre-filled with `initial_capital` rows; day 0 is skipped entirely
(`continue`), so its row keeps the initialised values; every later day runs
`_generate_orders` / `_execute_order` / `_update_portfolio_value`.  The only
wall-clock dependence is `elapsed`, stored in `execution_time`. -/
def runBacktest (sq : ℚ → ℚ) (rpow : ℚ → ℚ → ℚ) (cfg : Config) (rm : RiskParams)
    (symbols : List String) (days : List Day) (elapsed : ℚ) : RunOutcome :=
  match days with
  | [] => RunOutcome.error
  | _d0 :: rest =>
    let initRow : DayRow :=
      ⟨cfg.initial_capital, cfg.initial_capital, 0, symbols.map (fun s => (s, 0, 0))⟩
    let pf0 := initialPortfolio cfg
    let step := rest.foldl
      (fun (acc : Portfolio × List DayRow × ℕ) d =>
        let r := simulateDay cfg rm symbols d acc.2.2 acc.1
        (r.1, acc.2.1 ++ [r.2], acc.2.2 + 1))
      (pf0, [], 1)
    let results := initRow :: step.2.1
    let metrics := calcMetrics sq rpow cfg.initial_capital
      (results.map (fun r => r.portfolio_value)) step.1.trades
    RunOutcome.ok
      { results := results
        metrics := metrics
        trades := step.1.trades
        final_value := metrics.final_value
        execution_time := elapsed }

/-- Forget the wall-clock field of a run outcome. -/
def eraseTime : RunOutcome → RunOutcome
  | RunOutcome.error => RunOutcome.error
  | RunOutcome.ok r => RunOutcome.ok { r with execution_time := 0 }

/-! ### Helper lemmas -/

lemma mem_setPos {l : List (String × ℚ)} {s : String} {v : ℚ} {x : String × ℚ}
    (hx : x ∈ setPos l s v) : x = (s, v) ∨ x ∈ l := by
  unfold setPos at hx
  split at hx
  · rcases List.mem_map.mp hx with ⟨e, he, hex⟩
    by_cases h : e.1 = s
    · simp [h] at hex; exact Or.inl hex.symm
    · simp [h] at hex; exact Or.inr (hex ▸ he)
  · rcases List.mem_append.mp hx with h | h
    · exact Or.inr h
    · simp at h; exact Or.inl h

lemma mem_erasePos {l : List (String × ℚ)} {s : String} {x : String × ℚ}
    (hx : x ∈ erasePos l s) : x ∈ l :=
  List.mem_of_mem_filter hx

lemma getPos_nonneg {l : List (String × ℚ)} (h : ∀ e ∈ l, 0 < e.2) (s : String) :
    0 ≤ getPos l s := by
  unfold getPos
  split
  · next e he =>
    exact le_of_lt (h e (List.mem_of_find?_eq_some he))
  · exact le_refl 0

/-- One executed order keeps the cash nonnegative, provided the rates are
genuine fractions and a SELL never asks for more than is held. -/
lemma executeOrder_cash_nonneg (cfg : Config) (o : Order) (date : ℕ) (pf : Portfolio)
    (hr0 : 0 ≤ cfg.commission_rate) (hr1 : cfg.commission_rate ≤ 1)
    (hs0 : 0 ≤ cfg.slippage) (hs1 : cfg.slippage ≤ 1)
    (hq : 0 ≤ o.quantity) (hp : 0 ≤ o.price)
    (hsell : o.action = Action.sell → o.quantity ≤ getPos pf.positions o.symbol)
    (hc : 0 ≤ pf.cash) : 0 ≤ (executeOrder cfg o date pf).cash := by
  cases ha : o.action with
  | buy =>
    have hep : 0 ≤ o.price * (1 + cfg.slippage) := by nlinarith
    simp only [executeOrder, ha, reduceCtorEq, if_true, if_false, ite_true, ite_false]
    split
    · next hover =>
      split
      · exact hc
      · next hpos =>
        have hadj : 0 < (pf.cash - o.price * (1 + cfg.slippage) * o.quantity * cfg.commission_rate) /
            (o.price * (1 + cfg.slippage)) := lt_of_not_ge (fun hle => hpos hle)
        have hepne : o.price * (1 + cfg.slippage) ≠ 0 := by
          intro h0
          rw [h0, div_zero] at hadj
          exact lt_irrefl 0 hadj
        simp only
        rw [mul_div_cancel₀ _ hepne]
        ring_nf
        exact le_refl 0
    · next hover =>
      have : o.price * (1 + cfg.slippage) * o.quantity +
          o.price * (1 + cfg.slippage) * o.quantity * cfg.commission_rate ≤ pf.cash :=
        le_of_not_gt hover
      simp only
      linarith
  | sell =>
    have hcur : o.quantity ≤ getPos pf.positions o.symbol := hsell ha
    have hep : 0 ≤ o.price * (1 - cfg.slippage) := by nlinarith
    simp only [executeOrder, ha, reduceCtorEq, if_true, if_false, ite_true, ite_false]
    have hclip : ¬ o.quantity > getPos pf.positions o.symbol := not_lt.mpr hcur
    simp only [hclip, ite_false]
    have : 0 ≤ o.price * (1 - cfg.slippage) * o.quantity * (1 - cfg.commission_rate) := by
      have h1 : 0 ≤ o.price * (1 - cfg.slippage) * o.quantity := mul_nonneg hep hq
      nlinarith
    nlinarith

/-- Mark-to-market never changes the cash. -/
lemma updatePortfolioValue_cash (prices : String → Option ℚ) (pf : Portfolio) :
    (updatePortfolioValue prices pf).1.cash = pf.cash := rfl

/-- A valid order sequence keeps the cash nonnegative (induction over the
sequence). -/
lemma execOrders_cash_nonneg (cfg : Config)
    (hr0 : 0 ≤ cfg.commission_rate) (hr1 : cfg.commission_rate ≤ 1)
    (hs0 : 0 ≤ cfg.slippage) (hs1 : cfg.slippage ≤ 1) :
    ∀ (orders : List Order) (pf : Portfolio), 0 ≤ pf.cash →
      validSeqB cfg pf orders = true → 0 ≤ (execOrders cfg 0 orders pf).cash := by
  intro orders
  induction orders with
  | nil => intro pf hc _; exact hc
  | cons o rest ih =>
    intro pf hc hv
    simp only [validSeqB, Bool.and_eq_true, decide_eq_true_eq] at hv
    obtain ⟨⟨⟨hq, hp⟩, hsell⟩, hrest⟩ := hv
    have hsell' : o.action = Action.sell → o.quantity ≤ getPos pf.positions o.symbol := by
      intro ha
      simp only [ha, if_true, ite_true, decide_eq_true_eq] at hsell
      exact hsell
    have hstep := executeOrder_cash_nonneg cfg o 0 pf hr0 hr1 hs0 hs1 hq hp hsell' hc
    exact ih (executeOrder cfg o 0 pf) hstep hrest

/-! ### Claim C1 -/

/-- Claim C1, counterexample to the claim as stated: starting from
`cash = initial_capital = 0 ≥ 0`, one SELL order with nonnegative quantity
and price, under nonnegative commission rate and zero slippage, drives the
cash negative — the SELL is clipped to the held quantity (zero here), but
its commission is charged from the *original* order quantity, so the
portfolio pays commission on shares it never sold. -/
theorem claim_c1_counterexample :
    (executeOrder ⟨0, 1/2000, 0⟩ ⟨"A", Action.sell, 1, 100⟩ 0
      (initialPortfolio ⟨0, 1/2000, 0⟩)).cash < 0 := by
  norm_num [executeOrder, getPos, setPos, erasePos, initialPortfolio]

/-- Claim C1 (amended): starting from `cash = initial_capital ≥ 0`, cash
stays nonnegative after every executed order and at every simulated day
boundary, for every sequence of BUY and SELL orders with nonnegative
quantity and price, PROVIDED the commission rate and slippage are at most 1
and every SELL asks for at most the held quantity at its execution point
(which is how `_generate_orders` builds SELL orders); mark-to-market leaves
the cash unchanged, so the bound carries to the day boundary. -/
theorem claim_c1_cash_nonneg (cfg : Config)
    (hr0 : 0 ≤ cfg.commission_rate) (hr1 : cfg.commission_rate ≤ 1)
    (hs0 : 0 ≤ cfg.slippage) (hs1 : cfg.slippage ≤ 1)
    (hcap : 0 ≤ cfg.initial_capital) (orders : List Order)
    (hv : validSeqB cfg (initialPortfolio cfg) orders = true) :
    0 ≤ (execOrders cfg 0 orders (initialPortfolio cfg)).cash ∧
      ∀ prices, (updatePortfolioValue prices (execOrders cfg 0 orders (initialPortfolio cfg))).1.cash =
        (execOrders cfg 0 orders (initialPortfolio cfg)).cash := by
  refine ⟨execOrders_cash_nonneg cfg hr0 hr1 hs0 hs1 orders (initialPortfolio cfg) hcap hv, ?_⟩
  intro prices
  exact updatePortfolioValue_cash prices _

/-- Claim C1, witness: a concrete BUY-then-SELL round trip at the default
commission rate and slippage. -/
theorem claim_c1_witness :
    0 ≤ (execOrders ⟨1000, 1/2000, 1/10000⟩ 0
        [⟨"A", Action.buy, 5, 10⟩, ⟨"A", Action.sell, 5, 10⟩]
        (initialPortfolio ⟨1000, 1/2000, 1/10000⟩)).cash ∧
      ∀ prices, (updatePortfolioValue prices (execOrders ⟨1000, 1/2000, 1/10000⟩ 0
          [⟨"A", Action.buy, 5, 10⟩, ⟨"A", Action.sell, 5, 10⟩]
          (initialPortfolio ⟨1000, 1/2000, 1/10000⟩))).1.cash =
        (execOrders ⟨1000, 1/2000, 1/10000⟩ 0
          [⟨"A", Action.buy, 5, 10⟩, ⟨"A", Action.sell, 5, 10⟩]
          (initialPortfolio ⟨1000, 1/2000, 1/10000⟩)).cash :=
  claim_c1_cash_nonneg ⟨1000, 1/2000, 1/10000⟩ (by norm_num) (by norm_num)
    (by norm_num) (by norm_num) (by norm_num)
    [⟨"A", Action.buy, 5, 10⟩, ⟨"A", Action.sell, 5, 10⟩]
    (by norm_num [validSeqB, executeOrder, getPos, setPos, erasePos, initialPortfolio,
      reduceCtorEq]
        <;> exact fun h => Action.noConfusion h)

/-! ### Claim C2 -/

lemma m2m_foldl (prices : String → Option ℚ) :
    ∀ (l : List (String × ℚ)) (a : ℚ) (rows : List (String × ℚ × ℚ)),
      (l.foldl (fun (acc : ℚ × List (String × ℚ × ℚ)) e =>
        match prices e.1 with
        | some price => (acc.1 + price * e.2, acc.2 ++ [(e.1, e.2, price * e.2)])
        | none => acc) (a, rows)).1 = a + positionsValueSpec prices l := by
  intro l
  induction l with
  | nil =>
    intro a rows
    simp [positionsValueSpec]
  | cons e t ih =>
    intro a rows
    simp only [List.foldl_cons]
    cases hp : prices e.1 with
    | none =>
      simp only [hp, positionsValueSpec, List.map_cons, List.sum_cons] at ih ⊢
      rw [ih]
      ring
    | some price =>
      simp only [hp, positionsValueSpec, List.map_cons, List.sum_cons] at ih ⊢
      rw [ih]
      ring

/-- Claim C2: after mark-to-market, the equity (and the day row's
`portfolio_value`) equals cash plus the sum, over every held symbol whose
close price is present in the day's data, of quantity times that close
price; a held symbol with no price contributes zero. -/
theorem claim_c2_equity_identity (prices : String → Option ℚ) (pf : Portfolio) :
    (updatePortfolioValue prices pf).1.equity =
      pf.cash + positionsValueSpec prices pf.positions ∧
    (updatePortfolioValue prices pf).2.portfolio_value =
      pf.cash + positionsValueSpec prices pf.positions := by
  have h := m2m_foldl prices pf.positions 0 []
  constructor <;>
    · simp only [updatePortfolioValue]
      rw [h]
      ring

/-! ### Claim C4 -/

/-- Claim C4, counterexample to the claim as stated: a SELL clipped from 2
requested shares to the 1 held share does not satisfy
`cash_after = cash_before + q·execution_price − q·execution_price·rate`
for the executed quantity `q = 1`: the code charges commission on the
original 2 shares. -/
theorem claim_c4_counterexample :
    ¬ ((executeOrder ⟨0, 1/1000, 0⟩ ⟨"A", Action.sell, 2, 100⟩ 0
        ⟨0, [("A", 1)], 100, []⟩).cash =
      0 + 1 * (100 * (1 - 0)) - 1 * (100 * (1 - 0)) * (1/1000)) := by
  norm_num [executeOrder, getPos, setPos, erasePos, reduceCtorEq]

/-- Claim C4 (amended): for every SELL order,
`cash_after = cash_before + q·execution_price − commission` where
`execution_price = price·(1 − slippage)`, `q` is the executed quantity
`min(requested, held)`, and the commission is computed from the *original*
requested quantity: `commission = execution_price·requested·commission_rate`
(it coincides with the claim's commission exactly when no clipping
occurs). -/
theorem claim_c4_sell_cash (cfg : Config) (o : Order) (date : ℕ) (pf : Portfolio)
    (ha : o.action = Action.sell) :
    (executeOrder cfg o date pf).cash =
      pf.cash + min o.quantity (getPos pf.positions o.symbol) * (o.price * (1 - cfg.slippage))
        - o.price * (1 - cfg.slippage) * o.quantity * cfg.commission_rate := by
  simp only [executeOrder, ha, reduceCtorEq, ite_true, ite_false, if_true, if_false]
  split
  · next hgt =>
    rw [min_eq_right (le_of_lt hgt)]
    ring
  · next hle =>
    rw [min_eq_left (le_of_not_gt hle)]
    ring

/-- Claim C4, witness: an unclipped concrete SELL of 1 of 2 held shares. -/
theorem claim_c4_witness :
    (executeOrder ⟨100000, 1/2000, 0⟩ ⟨"A", Action.sell, 1, 50⟩ 0
        ⟨100, [("A", 2)], 200, []⟩).cash =
      100 + min 1 (getPos [("A", 2)] "A") * (50 * (1 - 0)) - 50 * (1 - 0) * 1 * (1/2000) :=
  claim_c4_sell_cash ⟨100000, 1/2000, 0⟩ ⟨"A", Action.sell, 1, 50⟩ 0
    ⟨100, [("A", 2)], 200, []⟩ rfl

/-! ### Claims C7 and C10 -/

/-- The two outcomes of the cash-constrained BUY branch of
`_execute_order`: a nonpositive shrunk quantity drops the order, a positive
one executes it with the trade value recomputed from the shrunk quantity
and the commission kept from the original one. -/
lemma executeOrder_buy_shrink (cfg : Config) (o : Order) (date : ℕ) (pf : Portfolio)
    (ha : o.action = Action.buy)
    (hover : o.price * (1 + cfg.slippage) * o.quantity +
      o.price * (1 + cfg.slippage) * o.quantity * cfg.commission_rate > pf.cash) :
    ((pf.cash - o.price * (1 + cfg.slippage) * o.quantity * cfg.commission_rate) /
        (o.price * (1 + cfg.slippage)) ≤ 0 →
      executeOrder cfg o date pf = pf) ∧
    (0 < (pf.cash - o.price * (1 + cfg.slippage) * o.quantity * cfg.commission_rate) /
        (o.price * (1 + cfg.slippage)) →
      executeOrder cfg o date pf =
        { pf with
          cash := pf.cash -
            (o.price * (1 + cfg.slippage) *
              ((pf.cash - o.price * (1 + cfg.slippage) * o.quantity * cfg.commission_rate) /
                (o.price * (1 + cfg.slippage))) +
              o.price * (1 + cfg.slippage) * o.quantity * cfg.commission_rate)
          positions := setPos pf.positions o.symbol
            (getPos pf.positions o.symbol +
              (pf.cash - o.price * (1 + cfg.slippage) * o.quantity * cfg.commission_rate) /
                (o.price * (1 + cfg.slippage)))
          trades := pf.trades ++
            [⟨date, o.symbol, Action.buy,
              (pf.cash - o.price * (1 + cfg.slippage) * o.quantity * cfg.commission_rate) /
                (o.price * (1 + cfg.slippage)),
              o.price * (1 + cfg.slippage),
              o.price * (1 + cfg.slippage) * o.quantity * cfg.commission_rate,
              o.price * (1 + cfg.slippage) *
                ((pf.cash - o.price * (1 + cfg.slippage) * o.quantity * cfg.commission_rate) /
                  (o.price * (1 + cfg.slippage)))⟩] }) := by
  simp only [executeOrder, ha, reduceCtorEq, ite_true, ite_false, if_true, if_false]
  rw [if_pos hover]
  constructor
  · intro hle
    rw [if_pos hle]
  · intro hpos
    rw [if_neg (not_le.mpr hpos)]

/-- Claim C7: cash-constrained BUY shrink semantics.  When the total cost
`execution_price·quantity + commission` exceeds the available cash, the
executed quantity becomes `(cash − commission)/execution_price` and the
trade value is recomputed from it, while the commission charged and recorded
stays `execution_price·requested·commission_rate` from the original
quantity; a nonpositive shrunk quantity drops the order with no state
change and no trade record. -/
theorem claim_c7_buy_shrink (cfg : Config) (o : Order) (date : ℕ) (pf : Portfolio)
    (ha : o.action = Action.buy)
    (hover : o.price * (1 + cfg.slippage) * o.quantity +
      o.price * (1 + cfg.slippage) * o.quantity * cfg.commission_rate > pf.cash) :
    ((pf.cash - o.price * (1 + cfg.slippage) * o.quantity * cfg.commission_rate) /
        (o.price * (1 + cfg.slippage)) ≤ 0 →
      executeOrder cfg o date pf = pf) ∧
    (0 < (pf.cash - o.price * (1 + cfg.slippage) * o.quantity * cfg.commission_rate) /
        (o.price * (1 + cfg.slippage)) →
      executeOrder cfg o date pf =
        { pf with
          cash := pf.cash -
            (o.price * (1 + cfg.slippage) *
              ((pf.cash - o.price * (1 + cfg.slippage) * o.quantity * cfg.commission_rate) /
                (o.price * (1 + cfg.slippage))) +
              o.price * (1 + cfg.slippage) * o.quantity * cfg.commission_rate)
          positions := setPos pf.positions o.symbol
            (getPos pf.positions o.symbol +
              (pf.cash - o.price * (1 + cfg.slippage) * o.quantity * cfg.commission_rate) /
                (o.price * (1 + cfg.slippage)))
          trades := pf.trades ++
            [⟨date, o.symbol, Action.buy,
              (pf.cash - o.price * (1 + cfg.slippage) * o.quantity * cfg.commission_rate) /
                (o.price * (1 + cfg.slippage)),
              o.price * (1 + cfg.slippage),
              o.price * (1 + cfg.slippage) * o.quantity * cfg.commission_rate,
              o.price * (1 + cfg.slippage) *
                ((pf.cash - o.price * (1 + cfg.slippage) * o.quantity * cfg.commission_rate) /
                  (o.price * (1 + cfg.slippage)))⟩] }) :=
  executeOrder_buy_shrink cfg o date pf ha hover

/-- Claim C7, witness: cash 500, BUY 10 shares at price 100 with zero
commission and slippage is shrunk to 5 shares. -/
theorem claim_c7_witness :
    (0 : ℚ) < (500 - 100 * (1 + 0) * 10 * 0) / (100 * (1 + 0)) ∧
    executeOrder ⟨500, 0, 0⟩ ⟨"A", Action.buy, 10, 100⟩ 0 ⟨500, [], 500, []⟩ =
      { cash := 500 - (100 * (1 + 0) * ((500 - 100 * (1 + 0) * 10 * 0) / (100 * (1 + 0))) +
          100 * (1 + 0) * 10 * 0)
        positions := setPos [] "A" (getPos [] "A" +
          (500 - 100 * (1 + 0) * 10 * 0) / (100 * (1 + 0)))
        equity := 500
        trades := [⟨0, "A", Action.buy,
          (500 - 100 * (1 + 0) * 10 * 0) / (100 * (1 + 0)), 100 * (1 + 0),
          100 * (1 + 0) * 10 * 0,
          100 * (1 + 0) * ((500 - 100 * (1 + 0) * 10 * 0) / (100 * (1 + 0)))⟩] } := by
  refine ⟨by norm_num, ?_⟩
  exact (claim_c7_buy_shrink ⟨500, 0, 0⟩ ⟨"A", Action.buy, 10, 100⟩ 0
    ⟨500, [], 500, []⟩ rfl (by norm_num)).2 (by norm_num)

/-- Claim C10: when a BUY's total cost exceeds the available cash and the
shrunk quantity is positive, the BUY consumes the cash exactly: the cash
after execution is 0. -/
theorem claim_c10_shrink_exhausts_cash (cfg : Config) (o : Order) (date : ℕ)
    (pf : Portfolio) (ha : o.action = Action.buy)
    (hover : o.price * (1 + cfg.slippage) * o.quantity +
      o.price * (1 + cfg.slippage) * o.quantity * cfg.commission_rate > pf.cash)
    (hadj : 0 < (pf.cash - o.price * (1 + cfg.slippage) * o.quantity * cfg.commission_rate) /
      (o.price * (1 + cfg.slippage))) :
    (executeOrder cfg o date pf).cash = 0 := by
  have hepne : o.price * (1 + cfg.slippage) ≠ 0 := by
    intro h0
    rw [h0, div_zero] at hadj
    exact lt_irrefl 0 hadj
  rw [(executeOrder_buy_shrink cfg o date pf ha hover).2 hadj]
  simp only
  rw [mul_div_cancel₀ _ hepne]
  ring

/-- Claim C10, witness: the shrunk BUY of `claim_c7_witness` leaves cash
exactly 0. -/
theorem claim_c10_witness :
    (executeOrder ⟨500, 0, 0⟩ ⟨"A", Action.buy, 10, 100⟩ 0 ⟨500, [], 500, []⟩).cash = 0 :=
  claim_c10_shrink_exhausts_cash ⟨500, 0, 0⟩ ⟨"A", Action.buy, 10, 100⟩ 0
    ⟨500, [], 500, []⟩ rfl (by norm_num) (by norm_num)

/-! ### Claims C5 and C6 -/

lemma mul_factor_le {m B s : ℚ} (hB : 0 ≤ B) (hm : m ≤ B) (hs0 : 0 ≤ s) (hs1 : s ≤ 1) :
    m * s ≤ B :=
  calc m * s ≤ B * s := mul_le_mul_of_nonneg_right hm hs0
    _ ≤ B := mul_le_of_le_one_right hB hs1

lemma utilization_factor_le (u B m2 : ℚ) (hB : 0 ≤ B) (hm2 : m2 ≤ B) :
    (if u > 7/10 then m2 * max (1 - (u - 7/10) / (3/10)) 0 else m2) ≤ B := by
  split
  · next hu =>
    refine mul_factor_le hB hm2 (le_max_right _ _) (max_le ?_ (by norm_num))
    have h0 : 0 ≤ (u - 7/10) / (3/10) := div_nonneg (by linarith) (by norm_num)
    linarith
  · exact hm2

lemma utilization_factor_nonneg (u m2 : ℚ) (hm2 : 0 ≤ m2) :
    0 ≤ (if u > 7/10 then m2 * max (1 - (u - 7/10) / (3/10)) 0 else m2) := by
  split
  · exact mul_nonneg hm2 (le_max_right _ _)
  · exact hm2

lemma sizeAdjust_le (ss : Option ℚ) (pos : List (String × ℚ)) (pv : ℚ)
    {m1 B : ℚ} (hB : 0 ≤ B) (hm : m1 ≤ B) : sizeAdjust ss pos pv m1 ≤ B := by
  cases ss with
  | none => exact utilization_factor_le _ B m1 hB hm
  | some s =>
    exact utilization_factor_le _ B _ hB
      (mul_factor_le hB hm (le_min (le_max_right _ _) (by norm_num)) (min_le_right _ _))

lemma sizeAdjust_nonneg (ss : Option ℚ) (pos : List (String × ℚ)) (pv : ℚ)
    {m1 : ℚ} (hm : 0 ≤ m1) : 0 ≤ sizeAdjust ss pos pv m1 := by
  cases ss with
  | none => exact utilization_factor_nonneg _ m1 hm
  | some s =>
    exact utilization_factor_nonneg _ _
      (mul_nonneg hm (le_min (le_max_right _ _) (by norm_num)))

/-- Whenever `calculate_position_size` returns, its result is at most
`max_position_size · portfolio_value`. -/
lemma calcPos_le_max {rm : RiskParams} {price pv : ℚ} {ss : Option ℚ}
    {pos : List (String × ℚ)} {vol : Option ℚ} {r : ℚ}
    (hpv : 0 ≤ pv) (hmps : 0 ≤ rm.max_position_size)
    (hres : calculatePositionSize rm price pv ss pos vol = some r) :
    r ≤ rm.max_position_size * pv := by
  have hB : 0 ≤ rm.max_position_size * pv := mul_nonneg hmps hpv
  cases vol with
  | none =>
    simp only [calculatePositionSize, Option.map_some'] at hres
    rw [← Option.some_inj.mp hres]
    exact sizeAdjust_le ss pos pv hB (le_of_eq (mul_comm pv rm.max_position_size))
  | some v =>
    by_cases hv : v = 0
    · simp [calculatePositionSize, hv] at hres
    · simp only [calculatePositionSize, hv, if_false, ite_false, Option.map_some'] at hres
      rw [← Option.some_inj.mp hres]
      refine sizeAdjust_le ss pos pv hB ?_
      exact le_trans (min_le_left _ _) (le_of_eq (mul_comm pv rm.max_position_size))

/-- With a positive volatility the result is also at most
`max_portfolio_risk · portfolio_value / volatility`. -/
lemma calcPos_le_risk {rm : RiskParams} {price pv : ℚ} {ss : Option ℚ}
    {pos : List (String × ℚ)} {r v : ℚ}
    (hpv : 0 ≤ pv) (hmpr : 0 ≤ rm.max_portfolio_risk) (hv : 0 < v)
    (hres : calculatePositionSize rm price pv ss pos (some v) = some r) :
    r ≤ rm.max_portfolio_risk * pv / v := by
  have hvne : v ≠ 0 := ne_of_gt hv
  have hB : 0 ≤ rm.max_portfolio_risk * pv / v :=
    div_nonneg (mul_nonneg hmpr hpv) (le_of_lt hv)
  simp only [calculatePositionSize, hvne, if_false, ite_false, Option.map_some'] at hres
  rw [← Option.some_inj.mp hres]
  refine sizeAdjust_le ss pos pv hB ?_
  refine le_trans (min_le_right _ _) (le_of_eq ?_)
  ring

/-- `calculate_position_size` succeeds with a nonnegative result under
nonnegative configuration, nonnegative portfolio value and a positive
volatility when one is supplied. -/
lemma calcPos_nonneg (rm : RiskParams) (price pv : ℚ) (ss : Option ℚ)
    (pos : List (String × ℚ)) (vol : Option ℚ)
    (hpv : 0 ≤ pv) (hmps : 0 ≤ rm.max_position_size) (hmpr : 0 ≤ rm.max_portfolio_risk)
    (hvol : ∀ v, vol = some v → 0 < v) :
    ∃ r, calculatePositionSize rm price pv ss pos vol = some r ∧ 0 ≤ r := by
  cases vol with
  | none =>
    refine ⟨sizeAdjust ss pos pv (pv * rm.max_position_size), ?_, ?_⟩
    · simp [calculatePositionSize]
    · exact sizeAdjust_nonneg ss pos pv (mul_nonneg hpv hmps)
  | some v =>
    have hv : 0 < v := hvol v rfl
    have hvne : v ≠ 0 := ne_of_gt hv
    refine ⟨sizeAdjust ss pos pv
      (min (pv * rm.max_position_size) (pv * rm.max_portfolio_risk / v)), ?_, ?_⟩
    · simp [calculatePositionSize, hvne]
    · refine sizeAdjust_nonneg ss pos pv (le_min (mul_nonneg hpv hmps) ?_)
      exact div_nonneg (mul_nonneg hpv hmpr) (le_of_lt hv)

/-- Claim C5, counterexample to the claim as stated: with a *negative*
supplied volatility the volatility-based cap is NOT skipped — the code has
no `volatility <= 0` guard — and the returned position size is negative:
`-2000` for the default risk parameters at `portfolio_value = 100000`,
`volatility = -1` (and at `volatility = 0` the division raises
`ZeroDivisionError` instead of returning). -/
theorem claim_c5_counterexample :
    calculatePositionSize ⟨1/10, 1/50⟩ 100 100000 none [] (some (-1)) = some (-2000) ∧
      ((-2000 : ℚ) < 0) := by
  constructor
  · norm_num [calculatePositionSize, sizeAdjust]
  · norm_num

/-- Claim C5 (amended): `calculate_position_size` applies the
volatility-based cap whenever a volatility is supplied — there is no
`volatility <= 0` guard, volatility 0 raises `ZeroDivisionError` (modelled
`none`) and a negative volatility can return a negative size.  The call
returns normally with a nonnegative size whenever the risk fractions and
the portfolio value are nonnegative and any supplied volatility is
positive. -/
theorem claim_c5_sizing_guard (rm : RiskParams) (price pv : ℚ) (ss : Option ℚ)
    (pos : List (String × ℚ)) (vol : Option ℚ)
    (hpv : 0 ≤ pv) (hmps : 0 ≤ rm.max_position_size) (hmpr : 0 ≤ rm.max_portfolio_risk)
    (hvol : ∀ v, vol = some v → 0 < v) :
    ∃ r, calculatePositionSize rm price pv ss pos vol = some r ∧ 0 ≤ r :=
  calcPos_nonneg rm price pv ss pos vol hpv hmps hmpr hvol

/-- Claim C5, witness: a concrete call with positive volatility returns a
nonnegative size. -/
theorem claim_c5_witness :
    ∃ r, calculatePositionSize ⟨1/10, 1/50⟩ 100 100000 (some 1) [("A", 3)] (some 2) =
      some r ∧ 0 ≤ r :=
  claim_c5_sizing_guard ⟨1/10, 1/50⟩ 100 100000 (some 1) [("A", 3)] (some 2)
    (by norm_num) (by norm_num) (by norm_num)
    (fun v hv => by injection hv with h; rw [← h]; norm_num)

/-- Anatomy of a BUY order emitted by `_generate_orders`: its price is the
day's close and its quantity is `size / price` for a positive size returned
by the risk manager (called on the current equity with no volatility). -/
lemma generateOrders_buy_size {rm : RiskParams} {symbols : List String} {d : Day}
    {pf : Portfolio} {o : Order} (ho : o ∈ generateOrders rm symbols d pf)
    (ha : o.action = Action.buy) :
    ∃ price size, d.prices o.symbol = some price ∧
      calculatePositionSize rm price pf.equity (some ((d.momentum o.symbol).getD 0))
        pf.positions none = some size ∧
      0 < size ∧ o.quantity = size / price ∧ o.price = price := by
  rcases List.mem_filterMap.mp ho with ⟨s, _hs, hoz⟩
  unfold orderForSymbol at hoz
  cases hsig : d.signal s with
  | none => rw [hsig] at hoz; exact absurd hoz (by simp)
  | some sig =>
    rw [hsig] at hoz
    dsimp only at hoz
    by_cases hbuy : sig = 1 ∧ getPos pf.positions s ≤ 0
    · rw [if_pos hbuy] at hoz
      cases hp : d.prices s with
      | none => rw [hp] at hoz; exact absurd hoz (by simp)
      | some price =>
        rw [hp] at hoz
        dsimp only at hoz
        cases hcp : calculatePositionSize rm price pf.equity
            (some ((d.momentum s).getD 0)) pf.positions none with
        | none => rw [hcp] at hoz; exact absurd hoz (by simp)
        | some size =>
          rw [hcp] at hoz
          dsimp only at hoz
          by_cases hpos : size > 0
          · rw [if_pos hpos] at hoz
            have ho' := Option.some_inj.mp hoz
            subst ho'
            exact ⟨price, size, hp, hcp, hpos, rfl, rfl⟩
          · rw [if_neg hpos] at hoz; exact absurd hoz (by simp)
    · rw [if_neg hbuy] at hoz
      by_cases hsell : sig = -1 ∧ getPos pf.positions s > 0
      · rw [if_pos hsell] at hoz
        cases hp : d.prices s with
        | none => rw [hp] at hoz; exact absurd hoz (by simp)
        | some price =>
          rw [hp] at hoz
          dsimp only at hoz
          have ho' := Option.some_inj.mp hoz
          subst ho'
          exact absurd ha (by simp)
      · rw [if_neg hsell] at hoz; exact absurd hoz (by simp)

/-- Claim C6: the computed position size never exceeds
`max_position_size · portfolio_value`; with a positive supplied volatility it
also never exceeds `max_portfolio_risk · portfolio_value / volatility`; and
every BUY emitted by `_generate_orders` has notional size
`price · quantity ≤ max_position_size · equity` at sizing time (for
nonnegative risk fractions and portfolio value, as in any engine-reachable
state). -/
theorem claim_c6_position_size_caps :
    (∀ (rm : RiskParams) (price pv : ℚ) (ss : Option ℚ) (pos : List (String × ℚ))
        (vol : Option ℚ) (r : ℚ),
      0 ≤ pv → 0 ≤ rm.max_position_size → 0 ≤ rm.max_portfolio_risk →
      calculatePositionSize rm price pv ss pos vol = some r →
      r ≤ rm.max_position_size * pv ∧
        ∀ v, vol = some v → 0 < v → r ≤ rm.max_portfolio_risk * pv / v) ∧
    (∀ (rm : RiskParams) (symbols : List String) (d : Day) (pf : Portfolio) (o : Order),
      0 ≤ pf.equity → 0 ≤ rm.max_position_size →
      o ∈ generateOrders rm symbols d pf → o.action = Action.buy →
      o.price * o.quantity ≤ rm.max_position_size * pf.equity) := by
  constructor
  · intro rm price pv ss pos vol r hpv hmps hmpr hres
    refine ⟨calcPos_le_max hpv hmps hres, ?_⟩
    intro v hveq hv
    subst hveq
    exact calcPos_le_risk hpv hmpr hv hres
  · intro rm symbols d pf o heq hmps ho ha
    obtain ⟨price, size, _hp, hcp, _hpos, hq, hpr⟩ := generateOrders_buy_size ho ha
    rw [hpr, hq]
    by_cases hprice : price = 0
    · rw [hprice]
      simp only [zero_mul]
      exact mul_nonneg hmps heq
    · rw [mul_comm price (size / price), div_mul_cancel₀ _ hprice]
      exact calcPos_le_max heq hmps hcp

/-- Claim C6, witness: a concrete sizing call capped by both limits, and a
concrete generated BUY order within the risk cap. -/
theorem claim_c6_witness :
    calculatePositionSize ⟨1/10, 1/50⟩ 100 1000 none [] (some 1) = some 20 ∧
    (20 : ℚ) ≤ (1/10 : ℚ) * 1000 ∧ (20 : ℚ) ≤ (1/50 : ℚ) * 1000 / 1 ∧
    Order.price ⟨"A", Action.buy, 1, 100⟩ * Order.quantity ⟨"A", Action.buy, 1, 100⟩ ≤
      (1/10 : ℚ) * (initialPortfolio ⟨1000, 0, 0⟩).equity := by
  have h1 : calculatePositionSize ⟨1/10, 1/50⟩ 100 1000 none [] (some 1) = some 20 := by
    norm_num [calculatePositionSize, sizeAdjust]
  have h2 := claim_c6_position_size_caps.1 ⟨1/10, 1/50⟩ 100 1000 none [] (some 1) 20
    (by norm_num) (by norm_num) (by norm_num) h1
  refine ⟨h1, h2.1, h2.2 1 rfl (by norm_num), ?_⟩
  refine claim_c6_position_size_caps.2 ⟨1/10, 1/50⟩ ["A"]
    ⟨fun _ => some 100, fun _ => some 1, fun _ => some 1⟩ (initialPortfolio ⟨1000, 0, 0⟩)
    ⟨"A", Action.buy, 1, 100⟩ (by norm_num [initialPortfolio]) (by norm_num) ?_ rfl
  norm_num [generateOrders, orderForSymbol, calculatePositionSize, sizeAdjust, getPos,
    initialPortfolio]

/-! ### Claim C3 -/

/-- With positive close prices, every BUY order emitted by
`_generate_orders` has a positive quantity. -/
lemma generateOrders_buy_pos {rm : RiskParams} {symbols : List String} {d : Day}
    {pf : Portfolio} (hprices : ∀ s p, d.prices s = some p → 0 < p) :
    ∀ o ∈ generateOrders rm symbols d pf, o.action = Action.buy → 0 < o.quantity := by
  intro o ho ha
  obtain ⟨price, size, hp, _hcp, hpos, hq, _hpr⟩ := generateOrders_buy_size ho ha
  rw [hq]
  exact div_pos hpos (hprices _ _ hp)

/-- One executed order whose BUY quantity is positive preserves the
strict positivity of every position-map entry. -/
lemma executeOrder_posInv (cfg : Config) (o : Order) (date : ℕ) (pf : Portfolio)
    (hbuyq : o.action = Action.buy → 0 < o.quantity)
    (hinv : ∀ e ∈ pf.positions, 0 < e.2) :
    ∀ e ∈ (executeOrder cfg o date pf).positions, 0 < e.2 := by
  have hget : 0 ≤ getPos pf.positions o.symbol := getPos_nonneg hinv o.symbol
  cases ha : o.action with
  | buy =>
    simp only [executeOrder, ha, reduceCtorEq, ite_true, ite_false, if_true, if_false]
    split
    · split
      · exact hinv
      · next hadj =>
        intro e he
        rcases mem_setPos he with rfl | he'
        · have : 0 < (pf.cash - o.price * (1 + cfg.slippage) * o.quantity * cfg.commission_rate) /
              (o.price * (1 + cfg.slippage)) := lt_of_not_ge (fun h => hadj h)
          simpa using add_pos_of_nonneg_of_pos hget this
        · exact hinv e he'
    · intro e he
      rcases mem_setPos he with rfl | he'
      · simpa using add_pos_of_nonneg_of_pos hget (hbuyq ha)
      · exact hinv e he'
  | sell =>
    simp only [executeOrder, ha, reduceCtorEq, ite_true, ite_false, if_true, if_false]
    intro e he
    by_cases hrem : getPos pf.positions o.symbol -
        (if o.quantity > getPos pf.positions o.symbol then getPos pf.positions o.symbol
         else o.quantity) ≤ 0
    · rw [if_pos hrem] at he
      have he1 := List.mem_filter.mp he
      have hne : ¬ e.1 = o.symbol := by
        have := he1.2
        simpa using this
      rcases mem_setPos he1.1 with rfl | he'
      · exact absurd rfl hne
      · exact hinv e he'
    · rw [if_neg hrem] at he
      rcases mem_setPos he with rfl | he'
      · simpa using lt_of_not_ge (fun h => hrem h)
      · exact hinv e he'

/-- Executing a list of orders whose BUYs all have positive quantity
preserves entry positivity. -/
lemma execOrders_posInv (cfg : Config) (date : ℕ) :
    ∀ (orders : List Order) (pf : Portfolio),
      (∀ o ∈ orders, o.action = Action.buy → 0 < o.quantity) →
      (∀ e ∈ pf.positions, 0 < e.2) →
      ∀ e ∈ (execOrders cfg date orders pf).positions, 0 < e.2 := by
  intro orders
  induction orders with
  | nil => intro pf _ hinv; exact hinv
  | cons o rest ih =>
    intro pf horders hinv
    refine ih (executeOrder cfg o date pf) (fun o' ho' => horders o' (List.mem_cons_of_mem o ho')) ?_
    exact executeOrder_posInv cfg o date pf (horders o (List.mem_cons_self o rest)) hinv

/-- One simulated day preserves entry positivity (mark-to-market does not
touch the positions). -/
lemma simulateDay_posInv (cfg : Config) (rm : RiskParams) (symbols : List String)
    (d : Day) (date : ℕ) (pf : Portfolio)
    (hprices : ∀ s p, d.prices s = some p → 0 < p)
    (hinv : ∀ e ∈ pf.positions, 0 < e.2) :
    ∀ e ∈ (simulateDay cfg rm symbols d date pf).1.positions, 0 < e.2 := by
  have hpos : ∀ e ∈ (execOrders cfg date (generateOrders rm symbols d pf) pf).positions, 0 < e.2 :=
    execOrders_posInv cfg date (generateOrders rm symbols d pf) pf
      (generateOrders_buy_pos hprices) hinv
  exact hpos

/-- The daily loop preserves entry positivity over any day list with
positive prices. -/
lemma runDays_posInv (cfg : Config) (rm : RiskParams) (symbols : List String) :
    ∀ (days : List Day) (i : ℕ) (pf : Portfolio),
      (∀ d ∈ days, ∀ s p, d.prices s = some p → 0 < p) →
      (∀ e ∈ pf.positions, 0 < e.2) →
      ∀ e ∈ (runDays cfg rm symbols days i pf).positions, 0 < e.2 := by
  intro days
  induction days with
  | nil => intro i pf _ hinv; exact hinv
  | cons d rest ih =>
    intro i pf hprices hinv
    refine ih (i + 1) (simulateDay cfg rm symbols d i pf).1
      (fun d' hd' => hprices d' (List.mem_cons_of_mem d hd')) ?_
    exact simulateDay_posInv cfg rm symbols d i pf
      (hprices d (List.mem_cons_self d rest)) hinv

/-- Claim C3: in every state reachable by the simulation loop from the
initial empty book — after any number of whole days, and after any prefix
of the next day's executed orders — every position-map entry has a strictly
positive quantity, and no symbol's position is negative.  Hypothesis: the
bar data carries positive close prices, as Python's engine presumes (a BUY
at price 0 would raise `ZeroDivisionError`). -/
theorem claim_c3_long_only (cfg : Config) (rm : RiskParams) (symbols : List String)
    (days : List Day) (i0 : ℕ)
    (hprices : ∀ d ∈ days, ∀ s p, d.prices s = some p → 0 < p) :
    (∀ n, (∀ e ∈ (runDays cfg rm symbols (days.take n) i0 (initialPortfolio cfg)).positions,
        0 < e.2) ∧
      ∀ s, 0 ≤ getPos (runDays cfg rm symbols (days.take n) i0 (initialPortfolio cfg)).positions s) ∧
    (∀ n d, days.get? n = some d → ∀ k,
      ∀ e ∈ (execOrders cfg (i0 + n)
          ((generateOrders rm symbols d
            (runDays cfg rm symbols (days.take n) i0 (initialPortfolio cfg))).take k)
          (runDays cfg rm symbols (days.take n) i0 (initialPortfolio cfg))).positions,
        0 < e.2) := by
  have hinit : ∀ e ∈ (initialPortfolio cfg).positions, 0 < e.2 := by
    intro e he
    exact absurd he (List.not_mem_nil e)
  have hstate : ∀ n, ∀ e ∈ (runDays cfg rm symbols (days.take n) i0 (initialPortfolio cfg)).positions,
      0 < e.2 := by
    intro n
    exact runDays_posInv cfg rm symbols (days.take n) i0 (initialPortfolio cfg)
      (fun d hd => hprices d (List.take_subset n days hd)) hinit
  refine ⟨fun n => ⟨hstate n, fun s => getPos_nonneg (hstate n) s⟩, ?_⟩
  intro n d hd k
  have hdmem : d ∈ days := List.get?_mem hd
  refine execOrders_posInv cfg (i0 + n) _ _ ?_ (hstate n)
  intro o ho ha
  exact generateOrders_buy_pos (hprices d hdmem) o (List.take_subset k _ ho) ha

/-- Claim C3, witness: one concrete BUY day leaves a book whose only entry
is positive and whose `get` is nonnegative for an arbitrary symbol. -/
theorem claim_c3_witness :
    0 ≤ getPos (runDays ⟨1000, 0, 0⟩ ⟨1/10, 1/50⟩ ["A"]
      (List.take 1 [(⟨fun _ => some 100, fun _ => some 1, fun _ => some 1⟩ : Day)]) 1
      (initialPortfolio ⟨1000, 0, 0⟩)).positions "A" :=
  ((claim_c3_long_only ⟨1000, 0, 0⟩ ⟨1/10, 1/50⟩ ["A"]
    [⟨fun _ => some 100, fun _ => some 1, fun _ => some 1⟩] 1
    (by
      intro d hd s p hp
      simp only [List.mem_singleton] at hd
      subst hd
      simp only at hp
      injection hp with h
      rw [← h]
      norm_num)).1 1).2 "A"

/-! ### Claim C8 -/

lemma pctChange_replicate (m : ℕ) (c : ℚ) (hc : c ≠ 0) :
    pctChange (List.replicate (m + 1) c) = none :: List.replicate m (some 0) := by
  rw [List.replicate_succ]
  simp only [pctChange]
  congr 1
  rw [show (c :: List.replicate m c) = List.replicate (m + 1) c from
    (List.replicate_succ c m).symm]
  rw [List.zipWith_replicate]
  rw [show (m + 1) ⊓ m = m by omega]
  congr 1
  rw [if_neg hc, div_self hc]
  norm_num

lemma filterMap_id_replicate (m : ℕ) :
    (List.replicate m (some (0:ℚ))).filterMap id = List.replicate m 0 := by
  induction m with
  | zero => rfl
  | succ k ih =>
    rw [List.replicate_succ, List.replicate_succ, List.filterMap_cons]
    simp only [id]
    rw [ih]

lemma sampleVariance_replicate_zero (k : ℕ) (hk : 2 ≤ k) :
    sampleVariance (List.replicate k (0:ℚ)) = some 0 := by
  unfold sampleVariance
  rw [List.length_replicate]
  rw [if_neg (by omega)]
  simp [listMean, List.sum_replicate, List.map_replicate]

lemma scanl_mul_replicate_one :
    ∀ (m : ℕ) (a : ℚ), (List.replicate m (1:ℚ)).scanl (· * ·) a = a :: List.replicate m a := by
  intro m
  induction m with
  | zero => intro a; simp
  | succ k ih =>
    intro a
    rw [List.replicate_succ, List.scanl_cons, mul_one, ih a, ← List.replicate_succ]
    simp

lemma cumprod_replicate_one (m : ℕ) :
    cumprod (List.replicate m (1:ℚ)) = List.replicate m 1 := by
  unfold cumprod
  rw [scanl_mul_replicate_one m 1]
  rfl

lemma cummaxAux_replicate_one :
    ∀ m, cummaxAux 1 (List.replicate m (1:ℚ)) = List.replicate m 1 := by
  intro m
  induction m with
  | zero => rfl
  | succ k ih =>
    rw [List.replicate_succ]
    show max 1 1 :: cummaxAux (max 1 1) (List.replicate k 1) = List.replicate (k + 1) 1
    rw [max_self, ih, ← List.replicate_succ]

lemma cummax_replicate_one (m : ℕ) :
    cummax (List.replicate m (1:ℚ)) = List.replicate m 1 := by
  cases m with
  | zero => rfl
  | succ k =>
    rw [List.replicate_succ]
    show 1 :: cummaxAux 1 (List.replicate k 1) = 1 :: List.replicate k 1
    rw [cummaxAux_replicate_one]

lemma min?_replicate_zero : ∀ k, k ≠ 0 → (List.replicate k (0:ℚ)).min? = some 0 := by
  intro k
  induction k with
  | zero => intro h; exact absurd rfl h
  | succ j ih =>
    intro _
    rw [List.replicate_succ, List.min?_cons]
    cases j with
    | zero => rfl
    | succ i =>
      rw [ih (Nat.succ_ne_zero i)]
      simp

/-- Claim C8 (amended): on a constant positive `portfolio_value` series equal
to `initial_capital` with at least three rows (so that the sample standard
deviation of the daily returns is defined rather than NaN), the metrics give
`total_return = 0`, `volatility = 0`, `sharpe_ratio = 0` (the division is
guarded) and `max_drawdown = 0`, for any trade log.  `sq` stands for the
square root used by the code; only `sq 0 = 0` is needed. -/
theorem claim_c8_flat_metrics (sq : ℚ → ℚ) (rpow : ℚ → ℚ → ℚ) (c : ℚ) (n : ℕ)
    (trades : List Trade) (hc : 0 < c) (hn : 3 ≤ n) (hsq : sq 0 = 0) :
    (calcMetrics sq rpow c (List.replicate n c) trades).total_return = some 0 ∧
    (calcMetrics sq rpow c (List.replicate n c) trades).volatility = some 0 ∧
    (calcMetrics sq rpow c (List.replicate n c) trades).sharpe_ratio = 0 ∧
    (calcMetrics sq rpow c (List.replicate n c) trades).max_drawdown = some 0 := by
  have hc' : c ≠ 0 := ne_of_gt hc
  obtain ⟨m, rfl⟩ : ∃ m, n = m + 3 := ⟨n - 3, by omega⟩
  have hpct : pctChange (List.replicate (m + 3) c) = none :: List.replicate (m + 2) (some 0) := by
    have h := pctChange_replicate (m + 2) c hc'
    rw [show m + 2 + 1 = m + 3 by omega] at h
    exact h
  have hlast : (List.replicate (m + 3) c).getLast? = some c := by
    rw [List.getLast?_replicate]
    simp
  have hdr : (pctChange (List.replicate (m + 3) c)).filterMap id = List.replicate (m + 2) 0 := by
    rw [hpct, List.filterMap_cons]
    simp only [id]
    exact filterMap_id_replicate (m + 2)
  have hvar : sampleVariance ((pctChange (List.replicate (m + 3) c)).filterMap id) = some 0 := by
    rw [hdr]
    exact sampleVariance_replicate_zero (m + 2) (by omega)
  have hfill : ((pctChange (List.replicate (m + 3) c)).map (fun o => o.getD 0)).map
      (fun r => 1 + r) = List.replicate (m + 3) 1 := by
    rw [hpct, List.map_cons, List.map_replicate, List.map_cons, List.map_replicate]
    rw [show m + 3 = m + 2 + 1 by omega]
    simp [List.replicate_succ]
  refine ⟨?_, ?_, ?_, ?_⟩
  · simp only [calcMetrics]
    rw [hlast]
    simp [div_self hc']
  · simp only [calcMetrics]
    rw [hvar, Option.map_some', hsq, zero_mul]
  · simp only [calcMetrics]
    rw [hvar, hlast, Option.map_some', Option.map_some', Option.map_some', hsq, zero_mul]
    norm_num
  · simp only [calcMetrics]
    rw [hfill, cumprod_replicate_one, cummax_replicate_one, List.zipWith_replicate]
    rw [show (m + 3) ⊓ (m + 3) = m + 3 by omega]
    rw [show (1:ℚ) / 1 - 1 = 0 by norm_num]
    exact min?_replicate_zero (m + 3) (by omega)

/-- Claim C8, counterexample to the claim as stated: on a two-row constant
series there is only one daily return, its sample standard deviation
(`pandas` `std` with `ddof=1`) is NaN — modelled `none` — so `volatility`
is NaN, not 0. -/
theorem claim_c8_counterexample :
    ¬ ((calcMetrics id (fun x _ => x) 100000 [100000, 100000] []).volatility = some 0) := by
  have h1 : pctChange [100000, 100000] = [none, some 0] := by
    norm_num [pctChange]
  simp only [calcMetrics]
  rw [h1]
  simp [sampleVariance]

/-- Claim C8, witness: the three-row flat series at the default initial
capital, with the genuine square root replaced by any function with
`sq 0 = 0` (here `id`). -/
theorem claim_c8_witness :
    (calcMetrics id (fun x _ => x) 100000 (List.replicate 3 100000) []).total_return = some 0 ∧
    (calcMetrics id (fun x _ => x) 100000 (List.replicate 3 100000) []).volatility = some 0 ∧
    (calcMetrics id (fun x _ => x) 100000 (List.replicate 3 100000) []).sharpe_ratio = 0 ∧
    (calcMetrics id (fun x _ => x) 100000 (List.replicate 3 100000) []).max_drawdown = some 0 :=
  claim_c8_flat_metrics id (fun x _ => x) 100000 3 [] (by norm_num) (by norm_num) rfl

/-! ### Claim C9 -/

/-- Claim C9: determinism.  `run` consults the wall clock (`time.time()`)
only for the `execution_time` entry of its result; with identical bar data,
signal table and configuration (capital, commission rate, slippage, risk
parameters), two executions differing only in their clock readings agree on
the daily results rows, the metrics, the trade records and the final value —
everything except `execution_time` (and the empty-data error result carries
no timing at all). -/
theorem claim_c9_determinism (sq : ℚ → ℚ) (rpow : ℚ → ℚ → ℚ) (cfg : Config)
    (rm : RiskParams) (symbols : List String) (days : List Day) (t₁ t₂ : ℚ) :
    eraseTime (runBacktest sq rpow cfg rm symbols days t₁) =
      eraseTime (runBacktest sq rpow cfg rm symbols days t₂) := by
  cases days with
  | nil => rfl
  | cons d rest => rfl

end TradingSystem
